import Mathlib

/-!
Shallow embedding of the zogo runtime schema-validation engine (Go).

Conventions of the embedding:
* Go's dynamic `any`/`interface{}` JSON-like values are the inductive `Value`
  (null, bool, number, string, array, string-keyed map).  Go `nil` is `Value.vnull`;
  a Go `map[string]interface{}` is an association list with distinct keys
  (Go maps cannot contain duplicate keys); Go map iteration order is
  unspecified, the embedding fixes the list order, so order-independent facts
  (issue counts, key sets, path sets) transfer to the Go code.
* Go float64 numbers are modelled as `Int`: every numeric input and bound
  appearing in the verified claims is integral, and the leaf numeric
  predicates are declared external collaborators by the spec.
* A Go `Validator` (interface with a single `Parse(value any) ParseResult`
  method) is its parse function `ParseFn := Value → ParseResult`; each
  combinator's `Parse` method becomes a Lean function taking the child
  parse functions as arguments, exactly mirroring the Go method bodies.
* Go zero values: a `ValidationError` built with field-by-field literals
  leaves omitted fields at their zero value (`""` for strings, `vnull` for
  `any`), which the embedding spells out explicitly.
-/

namespace Zogo

/-- Canonical dynamic value (Go `any` restricted to the JSON-like shapes the
library manipulates).  `vnull` is Go `nil`. -/
inductive Value where
  | vnull : Value
  | vbool (b : Bool) : Value
  | vnum (n : Int) : Value
  | vstr (s : String) : Value
  | varr (xs : List Value) : Value
  | vmap (m : List (String × Value)) : Value

/-- Go `value == nil` / `fieldResult.Value != nil` tests, as a Boolean. -/
def Value.isNull : Value → Bool
  | .vnull => true
  | _ => false

mutual
/-- Structural equality of dynamic values.  Models `reflect.DeepEqual` from
enum.go's `deepEqual`: the extra cross-numeric-type comparison of the Go
helper collapses to structural equality here because the embedding has a
single numeric representation. -/
def Value.beq : Value → Value → Bool
  | .vnull, .vnull => true
  | .vbool a, .vbool b => a = b
  | .vnum a, .vnum b => a = b
  | .vstr a, .vstr b => a = b
  | .varr as, .varr bs => Value.beqList as bs
  | .vmap am, .vmap bm => Value.beqMap am bm
  | _, _ => false

/-- Elementwise `Value.beq` on sequences. -/
def Value.beqList : List Value → List Value → Bool
  | [], [] => true
  | a :: as, b :: bs => Value.beq a b && Value.beqList as bs
  | _, _ => false

/-- Elementwise `Value.beq` on string-keyed mappings. -/
def Value.beqMap : List (String × Value) → List (String × Value) → Bool
  | [], [] => true
  | (k, v) :: as, (k2, v2) :: bs => k = k2 && Value.beq v v2 && Value.beqMap as bs
  | _, _ => false
end

/-- `ValidationError` from errors.go: path, message, offending value, code. -/
structure VError where
  path : String
  message : String
  value : Value
  code : String

/-- `ParseResult` from result.go: `Success(value)` or `Failure(errors...)`. -/
inductive ParseResult where
  | success (value : Value) : ParseResult
  | failure (errors : List VError) : ParseResult

/-- `FailureMessage` from result.go: a single error with only the message set
(other fields are Go zero values). -/
def failureMessage (message : String) : ParseResult :=
  .failure [⟨"", message, .vnull, ""⟩]

/-- A validator is its `Parse` function (the Go `Validator` interface). -/
def ParseFn : Type := Value → ParseResult

/-- The shared presence modifiers (`isRequired`, `isOptional`, `isNullable`)
that every combinator struct embeds. -/
structure Mods where
  isRequired : Bool
  isOptional : Bool
  isNullable : Bool
deriving DecidableEq, Repr

/-- Modifier state of a freshly constructed combinator (all flags false). -/
def Mods.none : Mods := ⟨false, false, false⟩

/-- `prependPath` from object.go: `""` stays `""`, otherwise prefix `"."`. -/
def prependPath (path : String) : String :=
  if path = "" then "" else "." ++ path

/-- `typeof` from string.go: Go type switch over the dynamic value.  Slices
and maps fall into the `default` branch (`"unknown"`). -/
def typeof : Value → String
  | .vnull => "null"
  | .vstr _ => "string"
  | .vnum _ => "number"
  | .vbool _ => "boolean"
  | .varr _ => "unknown"
  | .vmap _ => "unknown"

/-- Go map lookup `objMap[fieldName]` followed by the `!exists → nil`
convention of `ObjectValidator.Parse` (missing key behaves as `nil`). -/
def lookupV : List (String × Value) → String → Value
  | [], _ => .vnull
  | (k, v) :: rest, key => if k = key then v else lookupV rest key

/-- A sequence of Go early-return checks: the first pair whose condition is
true returns `FailureMessage` of its message; if none fires, the given
success result is returned.  This captures the straight-line
`if cond { return FailureMessage(msg) }` chains of the leaf validators. -/
def firstFailure : List (Bool × String) → ParseResult → ParseResult
  | [], ok => ok
  | (b, msg) :: rest, ok => if b then failureMessage msg else firstFailure rest ok

/-- An optional Go rule (`*T` field): when configured, the check with its
message; when absent, an always-passing check. -/
def optCheck {α : Type} (o : Option α) (bad : α → Bool) (msg : α → String) :
    Bool × String :=
  match o with
  | some a => (bad a, msg a)
  | none => (false, "")

/-! ### String leaf validator (string.go) -/

/-- Character class `[a-zA-Z0-9._%+-]` of the email regex local part. -/
def emailLocalChar (c : Char) : Bool :=
  c.isAlphanum || c = '.' || c = '_' || c = '%' || c = '+' || c = '-'

/-- Character class `[a-zA-Z0-9.-]` of the email regex domain part. -/
def emailDomainChar (c : Char) : Bool :=
  c.isAlphanum || c = '.' || c = '-'

/-- Decides the anchored regex fragment `[a-zA-Z0-9.-]+\.[a-zA-Z]{2,}`:
some `'.'` at position `i ≥ 1` splits the text into a nonempty prefix over
the domain class and an all-alphabetic suffix of length at least 2. -/
def emailDomainOk (cs : List Char) : Bool :=
  (List.range cs.length).any fun i =>
    cs.getD i ' ' = '.' && 1 ≤ i && (cs.take i).all emailDomainChar &&
      i + 3 ≤ cs.length && (cs.drop (i + 1)).all Char.isAlpha

/-- `isValidEmail` from string.go: full match of
`^[a-zA-Z0-9._%+-]+@[a-zA-Z0-9.-]+\.[a-zA-Z]{2,}$`, decided by choosing the
position of the `'@'` (neither class contains `'@'`, so the split is the
only candidate at each position). -/
def isValidEmail (email : String) : Bool :=
  let cs := email.toList
  (List.range cs.length).any fun i =>
    cs.getD i ' ' = '@' && 1 ≤ i && (cs.take i).all emailLocalChar &&
      emailDomainOk (cs.drop (i + 1))

/-- Character class of the URL regex body. -/
def urlChar (c : Char) : Bool :=
  c.isAlphanum ||
    ['-', '.', '_', '~', ':', '/', '?', '#', '[', ']', '@', '!', '$', '&',
      '\'', '(', ')', '*', '+', ',', ';', '=', '%'].contains c

/-- `isValidURL` from string.go: full match of
`^https?://[a-zA-Z0-9\-._~:/?#[\]@!$&'()*+,;=%]+$`. -/
def isValidURL (str : String) : Bool :=
  let cs := str.toList
  (cs.take 7 == "http://".toList && cs.length ≥ 8 && (cs.drop 7).all urlChar) ||
  (cs.take 8 == "https://".toList && cs.length ≥ 9 && (cs.drop 8).all urlChar)

/-- Lowercase hexadecimal digit `[0-9a-f]`. -/
def uuidHexChar (c : Char) : Bool := c.isDigit || ('a' ≤ c && c ≤ 'f')

/-- `isValidUUID` from string.go: lowercases the input, then full match of
`^[0-9a-f]{8}-[0-9a-f]{4}-4[0-9a-f]{3}-[89ab][0-9a-f]{3}-[0-9a-f]{12}$`
(fixed length 36, dashes at 8/13/18/23, version nibble `4` at 14, variant
`[89ab]` at 19, lowercase hex elsewhere). -/
def isValidUUID (str : String) : Bool :=
  let cs := str.toLower.toList
  cs.length = 36 &&
    (List.range 36).all fun i =>
      let c := cs.getD i ' '
      if i = 8 || i = 13 || i = 18 || i = 23 then c = '-'
      else if i = 14 then c = '4'
      else if i = 19 then c = '8' || c = '9' || c = 'a' || c = 'b'
      else uuidHexChar c

/-- Decimal digit accumulation, as in the `num = num*10 + int(ch-'0')` loop
of `isValidIPv4`. -/
def digitsToNat (cs : List Char) : Nat :=
  cs.foldl (fun n c => n * 10 + (c.toNat - '0'.toNat)) 0

/-- One dotted part of an IPv4 address per `isValidIPv4`: 1–3 characters,
no leading zero (except `"0"` itself), all digits, value at most 255. -/
def ipv4PartOk (p : String) : Bool :=
  let cs := p.toList
  !(cs.length = 0) && cs.length ≤ 3 &&
    !(cs.length > 1 && cs.getD 0 ' ' = '0') &&
    cs.all Char.isDigit && digitsToNat cs ≤ 255

/-- `isValidIPv4` from string.go. -/
def isValidIPv4 (s : String) : Bool :=
  let parts := s.splitOn "."
  parts.length = 4 && parts.all ipv4PartOk

/-- One colon-separated group of an IPv6 address per `isValidIPv6`. -/
def ipv6GroupOk (g : String) : Bool :=
  let cs := g.toList
  !(cs.length = 0) && cs.length ≤ 4 &&
    cs.all fun ch => ch.isDigit || ('a' ≤ ch && ch ≤ 'f') || ('A' ≤ ch && ch ≤ 'F')

/-- `isValidIPv6` from string.go: rejects `":::"`, splits on `"::"`
(at most one compression), filters empty groups around the compression,
and validates each group. -/
def isValidIPv6 (s : String) : Bool :=
  if (s.splitOn ":::").length ≥ 2 then false
  else
    let parts := s.splitOn "::"
    if parts.length > 2 then false
    else if parts.length = 2 then
      let leftF := ((parts.getD 0 "").splitOn ":").filter fun g => !(g = "")
      let rightF := ((parts.getD 1 "").splitOn ":").filter fun g => !(g = "")
      if leftF.length + rightF.length > 7 then false
      else (leftF ++ rightF).all ipv6GroupOk
    else
      let groups := s.splitOn ":"
      if !(groups.length = 8) then false
      else groups.all ipv6GroupOk

/-- `isValidIP` from string.go. -/
def isValidIP (s : String) : Bool := isValidIPv4 s || isValidIPv6 s

/-- `isValidBase64` from string.go: nonempty, length a multiple of 4,
base64 alphabet with `'='` only in the last two positions. -/
def isValidBase64 (s : String) : Bool :=
  let cs := s.toList
  !(cs.length = 0) && cs.length % 4 = 0 &&
    (List.range cs.length).all fun i =>
      let ch := cs.getD i ' '
      ch.isAlphanum || ch = '+' || ch = '/' || (ch = '=' && i + 2 ≥ cs.length)

/-- `isValidHex` from string.go. -/
def isValidHex (s : String) : Bool :=
  let cs := s.toList
  !(cs.length = 0) &&
    cs.all fun ch => ch.isDigit || ('a' ≤ ch && ch ≤ 'f') || ('A' ≤ ch && ch ≤ 'F')

/-- `isValidCUID` from string.go: 25 chars, leading `'c'`, base36 tail. -/
def isValidCUID (s : String) : Bool :=
  let cs := s.toList
  cs.length = 25 && cs.getD 0 ' ' = 'c' &&
    (cs.drop 1).all fun ch => ch.isDigit || ('a' ≤ ch && ch ≤ 'z')

/-- `isValidCUID2` from string.go: 24–32 chars, leading lowercase letter,
lowercase alphanumeric tail. -/
def isValidCUID2 (s : String) : Bool :=
  let cs := s.toList
  24 ≤ cs.length && cs.length ≤ 32 &&
    ('a' ≤ cs.getD 0 ' ' && cs.getD 0 ' ' ≤ 'z') &&
    (cs.drop 1).all fun ch => ch.isDigit || ('a' ≤ ch && ch ≤ 'z')

/-- `isValidULID` from string.go: 26 chars of Crockford base32 exactly as
the Go range checks spell it (0-9, A-H, J-K, M-N, P-T, V-Z). -/
def isValidULID (s : String) : Bool :=
  let cs := s.toList
  cs.length = 26 &&
    cs.all fun ch =>
      ch.isDigit || ('A' ≤ ch && ch ≤ 'H') || ('J' ≤ ch && ch ≤ 'K') ||
        ('M' ≤ ch && ch ≤ 'N') || ('P' ≤ ch && ch ≤ 'T') || ('V' ≤ ch && ch ≤ 'Z')

/-- `isValidNanoid` from string.go: 10–64 chars over `[A-Za-z0-9_-]`. -/
def isValidNanoid (s : String) : Bool :=
  let cs := s.toList
  10 ≤ cs.length && cs.length ≤ 64 &&
    cs.all fun ch => ch.isAlphanum || ch = '_' || ch = '-'

/-- `unicode.IsSpace` from the Go standard library: the Unicode
White_Space code points (U+0009–U+000D, U+0020, U+0085, U+00A0, U+1680,
U+2000–U+200A, U+2028, U+2029, U+202F, U+205F, U+3000). -/
def goIsSpace (c : Char) : Bool :=
  (0x9 ≤ c.toNat && c.toNat ≤ 0xD) || c.toNat = 0x20 || c.toNat = 0x85 ||
    c.toNat = 0xA0 || c.toNat = 0x1680 ||
    (0x2000 ≤ c.toNat && c.toNat ≤ 0x200A) || c.toNat = 0x2028 ||
    c.toNat = 0x2029 || c.toNat = 0x202F || c.toNat = 0x205F || c.toNat = 0x3000

/-- `strings.TrimSpace`: drop leading and trailing White_Space. -/
def goTrimSpace (s : String) : String :=
  ⟨((s.toList.dropWhile goIsSpace).reverse.dropWhile goIsSpace).reverse⟩

/-- `strings.Contains`. -/
def strContains (s sub : String) : Bool :=
  if sub = "" then true else (s.splitOn sub).length ≥ 2

/-- Configuration of `StringValidator` (string.go).  The compiled regular
expression of `Regex` and the `Check` closures of refinements are modelled
by their matching/checking functions. -/
structure StringConfig where
  minLen : Option Int := none
  maxLen : Option Int := none
  exactLen : Option Int := none
  pattern : Option (String → Bool) := none
  isEmail : Bool := false
  isURL : Bool := false
  isUUID : Bool := false
  isIP : Bool := false
  isIPv4 : Bool := false
  isIPv6 : Bool := false
  isBase64 : Bool := false
  isHex : Bool := false
  isCUID : Bool := false
  isCUID2 : Bool := false
  isULID : Bool := false
  isNanoid : Bool := false
  startsWith : Option String := none
  endsWith : Option String := none
  contains : Option String := none
  shouldTrim : Bool := false
  shouldLowercase : Bool := false
  shouldUppercase : Bool := false
  isRequired : Bool := false
  isOptional : Bool := false
  isNullable : Bool := false
  defaultVal : Option String := none
  refinements : List ((String → Bool) × String) := []

/-- `StringValidator.Parse` from string.go.  Go `len` (byte length) is
`String.utf8ByteSize`; the transformations run before every check, in
source order trim → lower → upper; the checks fire in source order via
`firstFailure`. -/
def stringParse (cfg : StringConfig) : ParseFn := fun value =>
  match value with
  | .vnull =>
    match cfg.defaultVal with
    | some d => .success (.vstr d)
    | none =>
      if cfg.isOptional then .success .vnull
      else if cfg.isNullable then .success .vnull
      else failureMessage "Expected string, received null"
  | .vstr s0 =>
    let s1 := if cfg.shouldTrim then goTrimSpace s0 else s0
    let s2 := if cfg.shouldLowercase then s1.toLower else s1
    let str := if cfg.shouldUppercase then s2.toUpper else s2
    let len : Int := str.utf8ByteSize
    firstFailure
      ([ optCheck cfg.exactLen (fun n => !(len = n))
          (fun n => "String must be exactly " ++ toString n ++ " characters")
       , optCheck cfg.minLen (fun n => len < n)
          (fun n => "String must be at least " ++ toString n ++ " characters")
       , optCheck cfg.maxLen (fun n => len > n)
          (fun n => "String must be at most " ++ toString n ++ " characters")
       , (cfg.isEmail && !isValidEmail str, "Invalid email format")
       , (cfg.isURL && !isValidURL str, "Invalid URL format")
       , (cfg.isUUID && !isValidUUID str, "Invalid UUID format")
       , (cfg.isIP && !isValidIP str, "Invalid IP address")
       , (cfg.isIPv4 && !isValidIPv4 str, "Invalid IPv4 address")
       , (cfg.isIPv6 && !isValidIPv6 str, "Invalid IPv6 address")
       , (cfg.isBase64 && !isValidBase64 str, "Invalid base64 string")
       , (cfg.isHex && !isValidHex str, "Invalid hexadecimal string")
       , (cfg.isCUID && !isValidCUID str, "Invalid CUID format")
       , (cfg.isCUID2 && !isValidCUID2 str, "Invalid CUID2 format")
       , (cfg.isULID && !isValidULID str, "Invalid ULID format")
       , (cfg.isNanoid && !isValidNanoid str, "Invalid Nanoid format")
       , optCheck cfg.pattern (fun p => !(p str))
          (fun _ => "String does not match required pattern")
       , optCheck cfg.startsWith (fun p => !(str.startsWith p))
          (fun p => "String must start with '" ++ p ++ "'")
       , optCheck cfg.endsWith (fun p => !(str.endsWith p))
          (fun p => "String must end with '" ++ p ++ "'")
       , optCheck cfg.contains (fun p => !(strContains str p))
          (fun p => "String must contain '" ++ p ++ "'")
       ] ++ cfg.refinements.map fun r => (!(r.1 str), r.2))
      (.success (.vstr str))
  | v => failureMessage ("Expected string, received " ++ typeof v)

/-! ### Number leaf validator (number.go) -/

/-- Configuration of `NumberValidator` (number.go), with the float64
fields at `Int` (every number in the verified claims is integral). -/
structure NumberConfig where
  minVal : Option Int := none
  maxVal : Option Int := none
  multipleOf : Option Int := none
  isInt : Bool := false
  isPositive : Bool := false
  isNegative : Bool := false
  isNonNegative : Bool := false
  isNonPositive : Bool := false
  isFinite : Bool := false
  isSafe : Bool := false
  isRequired : Bool := false
  isOptional : Bool := false
  isNullable : Bool := false
  defaultVal : Option Int := none
  refinements : List ((Int → Bool) × String) := []

/-- The `MultipleOf` failure condition of number.go: the truncated
remainder (`math.Mod` on integral operands is `Int.tmod`) differs from `0`
and from the divisor beyond the epsilon; `math.Mod(num, 0)` is NaN, whose
comparisons are false, so a zero divisor never fails. -/
def multipleOfFails (num m : Int) : Bool :=
  if m = 0 then false else !(num.tmod m = 0) && !(num.tmod m = m)

/-- `NumberValidator.Parse` from number.go.  All Go numeric subtypes
coerce to the canonical number, here `Int`.  On integral values
`math.IsInf`/`math.IsNaN` are false and `num == math.Floor(num)` always
holds, so the `Finite` and `Int` checks cannot fire. -/
def numberParse (cfg : NumberConfig) : ParseFn := fun value =>
  match value with
  | .vnull =>
    match cfg.defaultVal with
    | some d => .success (.vnum d)
    | none =>
      if cfg.isOptional then .success .vnull
      else if cfg.isNullable then .success .vnull
      else failureMessage "Expected number, received null"
  | .vnum num =>
    firstFailure
      ([ (cfg.isFinite && false, "Number must be finite")
       , (cfg.isInt && false, "Number must be an integer")
       , (cfg.isSafe && (num > 9007199254740991 || num < -9007199254740991),
          "Number must be within safe integer range")
       , optCheck cfg.minVal (fun m => num < m)
          (fun m => "Number must be at least " ++ toString m)
       , optCheck cfg.maxVal (fun m => num > m)
          (fun m => "Number must be at most " ++ toString m)
       , (cfg.isPositive && num ≤ 0, "Number must be positive")
       , (cfg.isNegative && num ≥ 0, "Number must be negative")
       , (cfg.isNonNegative && num < 0, "Number must be non-negative")
       , (cfg.isNonPositive && num > 0, "Number must be non-positive")
       , optCheck cfg.multipleOf (fun m => multipleOfFails num m)
          (fun m => "Number must be a multiple of " ++ toString m)
       ] ++ cfg.refinements.map fun r => (!(r.1 num), r.2))
      (.success (.vnum num))
  | v => failureMessage ("Expected number, received " ++ typeof v)

/-! ### Enum leaf validator (enum.go) -/

mutual
/-- Rendering of a dynamic value in the style of Go `fmt` `%v`, used only
inside the enum mismatch message (no verified claim depends on this
text). -/
def vformat : Value → String
  | .vnull => "<nil>"
  | .vbool b => if b then "true" else "false"
  | .vnum n => toString n
  | .vstr s => s
  | .varr xs => "[" ++ vformatList xs ++ "]"
  | .vmap m => "map[" ++ vformatMap m ++ "]"

/-- Space-separated `%v` items of a sequence. -/
def vformatList : List Value → String
  | [] => ""
  | [x] => vformat x
  | x :: xs => vformat x ++ " " ++ vformatList xs

/-- Space-separated `k:v` items of a mapping. -/
def vformatMap : List (String × Value) → String
  | [] => ""
  | [(k, v)] => k ++ ":" ++ vformat v
  | (k, v) :: xs => k ++ ":" ++ vformat v ++ " " ++ vformatMap xs
end

/-- Configuration of `EnumValidator` (enum.go). -/
structure EnumConfig where
  allowedValues : List Value := []
  isRequired : Bool := false
  isOptional : Bool := false
  isNullable : Bool := false
  defaultVal : Option Value := none

/-- `EnumValidator.Parse` from enum.go: a configured default wins on nil
before the optional/nullable checks; otherwise the value must be
`deepEqual` to one of the allowed values. -/
def enumParse (cfg : EnumConfig) : ParseFn := fun value =>
  match value with
  | .vnull =>
    match cfg.defaultVal with
    | some d => .success d
    | none =>
      if cfg.isOptional then .success .vnull
      else if cfg.isNullable then .success .vnull
      else failureMessage "Expected enum value, received null"
  | v =>
    if cfg.allowedValues.any fun a => Value.beq v a then .success v
    else
      failureMessage ("Invalid enum value. Expected one of: " ++
        "[" ++ vformatList cfg.allowedValues ++ "]" ++ ", received: " ++ vformat v)

/-! ### Object combinator (object.go) -/

/-- The `unknownFields` policy string of `ObjectValidator`
(`"strict"`, `"passthrough"`, `"strip"`). -/
inductive UnknownPolicy where
  | strict
  | passthrough
  | strip

/-- Membership of a field name in the schema
(`_, inSchema := v.schema[fieldName]`). -/
def schemaHas (schema : List (String × ParseFn)) (key : String) : Bool :=
  schema.any fun f => f.1 = key

/-- The schema-field loop of `ObjectValidator.Parse`: builds the result
entries (success with non-nil value) and collected errors (failure issues
re-wrapped with `fieldName + prependPath(err.Path)`; only `Path`,
`Message`, `Value` are copied, `Code` is left at its zero value).  Go map
iteration order is unspecified; the embedding processes the schema list
head first. -/
def objectFields (objMap : List (String × Value)) :
    List (String × ParseFn) → List (String × Value) × List VError
  | [] => ([], [])
  | (fieldName, fieldValidator) :: rest =>
    let t := objectFields objMap rest
    match fieldValidator (lookupV objMap fieldName) with
    | .failure errs =>
      (t.1, errs.map (fun e =>
        ⟨fieldName ++ prependPath e.path, e.message, e.value, ""⟩) ++ t.2)
    | .success v =>
      (if v.isNull then t.1 else (fieldName, v) :: t.1, t.2)

/-- The unknown-field loop of `ObjectValidator.Parse`: input keys not in
the schema yield an "Unknown field" issue under `strict`, are copied raw
under `passthrough`, and are dropped under `strip`. -/
def objectUnknowns (schema : List (String × ParseFn)) (policy : UnknownPolicy) :
    List (String × Value) → List (String × Value) × List VError
  | [] => ([], [])
  | (fieldName, fieldValue) :: rest =>
    let t := objectUnknowns schema policy rest
    if schemaHas schema fieldName then t
    else
      match policy with
      | .strict => (t.1, ⟨fieldName, "Unknown field", fieldValue, ""⟩ :: t.2)
      | .passthrough => ((fieldName, fieldValue) :: t.1, t.2)
      | .strip => t

/-- `ObjectValidator.Parse` from object.go. -/
def objectParse (schema : List (String × ParseFn)) (policy : UnknownPolicy)
    (mods : Mods) : ParseFn := fun value =>
  match value with
  | .vnull =>
    if mods.isOptional then .success .vnull
    else if mods.isNullable then .success .vnull
    else failureMessage "Expected object, received null"
  | .vmap objMap =>
    let f := objectFields objMap schema
    let u := objectUnknowns schema policy objMap
    let errors := f.2 ++ u.2
    if errors.length > 0 then .failure errors
    else .success (.vmap (f.1 ++ u.1))
  | v => failureMessage ("Expected object, received " ++ typeof v)

/-! ### Array combinator (part_009, `ArrayValidator`) -/

/-- Configuration of `ArrayValidator`: length bounds, `NonEmpty`, and the
presence modifiers. -/
structure ArrayConfig where
  minLen : Option Int := none
  maxLen : Option Int := none
  isNonEmpty : Bool := false
  isRequired : Bool := false
  isOptional : Bool := false
  isNullable : Bool := false

/-- The element loop of `ArrayValidator.Parse`: element `i`'s issues are
re-wrapped with path `"[i]" + prependPath(err.Path)` (`Code` left at its
zero value); successful element values are collected in order. -/
def arrayElems (elementValidator : ParseFn) :
    List Value → Nat → List Value × List VError
  | [], _ => ([], [])
  | elem :: rest, i =>
    let t := arrayElems elementValidator rest (i + 1)
    match elementValidator elem with
    | .failure errs =>
      (t.1, errs.map (fun e =>
        ⟨"[" ++ toString i ++ "]" ++ prependPath e.path, e.message, e.value, ""⟩) ++ t.2)
    | .success v => (v :: t.1, t.2)

/-- `ArrayValidator.Parse` from part_009. -/
def arrayParse (cfg : ArrayConfig) (elementValidator : ParseFn) : ParseFn :=
  fun value =>
  match value with
  | .vnull =>
    if cfg.isOptional then .success .vnull
    else if cfg.isNullable then .success .vnull
    else failureMessage "Expected array, received null"
  | .varr arr =>
    let arrLen : Int := arr.length
    firstFailure
      [ (cfg.isNonEmpty && arrLen = 0, "Array must not be empty")
      , optCheck cfg.minLen (fun n => arrLen < n)
          (fun n => "Array must contain at least " ++ toString n ++ " element(s)")
      , optCheck cfg.maxLen (fun n => arrLen > n)
          (fun n => "Array must contain at most " ++ toString n ++ " element(s)")
      ]
      (let t := arrayElems elementValidator arr 0
       if t.2.length > 0 then .failure t.2 else .success (.varr t.1))
  | v => failureMessage ("Expected array, received " ++ typeof v)

/-! ### Tuple combinator (tuple.go) -/

/-- The fixed-position loop of `TupleValidator.Parse`: position `i` is
validated by positional validator `i`, issues re-wrapped with `"[i]"`. -/
def tupleFixed : List ParseFn → List Value → Nat → List Value × List VError
  | [], _, _ => ([], [])
  | _ :: _, [], _ => ([], [])
  | validator :: vs, x :: xs, i =>
    let t := tupleFixed vs xs (i + 1)
    match validator x with
    | .failure errs =>
      (t.1, errs.map (fun e =>
        ⟨"[" ++ toString i ++ "]" ++ prependPath e.path, e.message, e.value, ""⟩) ++ t.2)
    | .success v => (v :: t.1, t.2)

/-- The rest loop of `TupleValidator.Parse`: elements beyond the
positional count validated by the rest validator, paths use the absolute
index. -/
def tupleRestLoop (rest : ParseFn) : List Value → Nat → List Value × List VError
  | [], _ => ([], [])
  | x :: xs, i =>
    let t := tupleRestLoop rest xs (i + 1)
    match rest x with
    | .failure errs =>
      (t.1, errs.map (fun e =>
        ⟨"[" ++ toString i ++ "]" ++ prependPath e.path, e.message, e.value, ""⟩) ++ t.2)
    | .success v => (v :: t.1, t.2)

/-- `TupleValidator.Parse` from tuple.go: exact length without a rest
validator, at-least length with one; then fixed positions and rest
elements are validated collect-all. -/
def tupleParse (validators : List ParseFn) (rest : Option ParseFn)
    (mods : Mods) : ParseFn := fun value =>
  match value with
  | .vnull =>
    if mods.isOptional then .success .vnull
    else if mods.isNullable then .success .vnull
    else failureMessage "Expected tuple, received null"
  | .varr arr =>
    let expectedLen := validators.length
    let actualLen := arr.length
    match rest with
    | none =>
      if !(actualLen = expectedLen) then
        failureMessage ("Expected tuple of length " ++ toString expectedLen ++
          ", received length " ++ toString actualLen)
      else
        let t := tupleFixed validators arr 0
        if t.2.length > 0 then .failure t.2 else .success (.varr t.1)
    | some restV =>
      if actualLen < expectedLen then
        failureMessage ("Expected tuple of at least length " ++ toString expectedLen ++
          ", received length " ++ toString actualLen)
      else
        let t := tupleFixed validators arr 0
        let r := tupleRestLoop restV (arr.drop expectedLen) expectedLen
        let errors := t.2 ++ r.2
        if errors.length > 0 then .failure errors else .success (.varr (t.1 ++ r.1))
  | v => failureMessage ("Expected tuple (array), received " ++ typeof v)

/-! ### Record combinator (part_001, `RecordValidator`) -/

/-- The entry loop of `RecordValidator.Parse`.  Per entry: the key (as a
string value) goes through the key validator; on key failure the issues
are re-wrapped at `"key(<original-key>)" + sub-path` and the value is
skipped.  On key success the value is validated; on value failure the
issues are re-wrapped at `<original-key> + sub-path` (the raw iteration
key, not the key validator's output).  On both succeeding, the entry is
inserted under the *validated* key, provided that output is a string —
otherwise a "Record key must be a string" issue is recorded. -/
def recordEntries (keyValidator valueValidator : ParseFn) :
    List (String × Value) → List (String × Value) × List VError
  | [] => ([], [])
  | (key, val) :: rest =>
    let t := recordEntries keyValidator valueValidator rest
    match keyValidator (.vstr key) with
    | .failure kerrs =>
      (t.1, kerrs.map (fun e =>
        ⟨"key(" ++ key ++ ")" ++ prependPath e.path, e.message, e.value, ""⟩) ++ t.2)
    | .success kv =>
      match valueValidator val with
      | .failure verrs =>
        (t.1, verrs.map (fun e =>
          ⟨key ++ prependPath e.path, e.message, e.value, ""⟩) ++ t.2)
      | .success vv =>
        match kv with
        | .vstr validatedKey => ((validatedKey, vv) :: t.1, t.2)
        | _ =>
          (t.1, ⟨"key(" ++ key ++ ")", "Record key must be a string", kv, ""⟩ :: t.2)

/-- `RecordValidator.Parse` from part_001. -/
def recordParse (keyValidator valueValidator : ParseFn) (mods : Mods) :
    ParseFn := fun value =>
  match value with
  | .vnull =>
    if mods.isOptional then .success .vnull
    else if mods.isNullable then .success .vnull
    else failureMessage "Expected record (object), received null"
  | .vmap objMap =>
    let t := recordEntries keyValidator valueValidator objMap
    if t.2.length > 0 then .failure t.2 else .success (.vmap t.1)
  | v => failureMessage ("Expected record (object), received " ++ typeof v)

/-! ### Union combinator (union.go) -/

/-- The per-member failure summary of `UnionValidator.Parse`: member `i`
(1-based in the message) contributes `"Option i: "` followed by the
comma-joined messages of its issues, or `"Option i: validation failed"`
when its failure carries no issues. -/
def unionOptionMsg (i : Nat) (errs : List VError) : String :=
  if errs.length > 0 then
    "Option " ++ toString i ++ ": " ++
      String.intercalate ", " (errs.map fun e => e.message)
  else "Option " ++ toString i ++ ": validation failed"

/-- The member loop of `UnionValidator.Parse`: first success returns that
member's value immediately; otherwise failure summaries accumulate and the
loop ends in the single synthesized union-exhausted issue. -/
def unionTry (value : Value) : List ParseFn → Nat → List String → ParseResult
  | [], _, allErrors =>
    failureMessage ("Value did not match any union type. Errors: " ++
      String.intercalate "; " allErrors)
  | validator :: rest, i, allErrors =>
    match validator value with
    | .success v => .success v
    | .failure errs => unionTry value rest (i + 1) (allErrors ++ [unionOptionMsg i errs])

/-- `UnionValidator.Parse` from union.go: on nil, optional and nullable
succeed and an explicit `required` rejects; otherwise (even on nil) the
members are tried in declaration order. -/
def unionParse (validators : List ParseFn) (mods : Mods) : ParseFn := fun value =>
  match value with
  | .vnull =>
    if mods.isOptional then .success .vnull
    else if mods.isNullable then .success .vnull
    else if mods.isRequired then failureMessage "Expected value, received null"
    else unionTry .vnull validators 1 []
  | v => unionTry v validators 1 []

/-! ### Intersection combinator (intersection.go) -/

/-- The member loop of `IntersectionValidator.Parse`: a single current
value threads through the members; a failing member's issues are recorded
with the `"Intersection validator i: "` ordinal annotation (keeping the
issue's own path and value, `Code` at its zero value) and the current
value is kept; a succeeding member's output becomes the new current
value. -/
def interLoop : List ParseFn → Nat → Value → List VError → Value × List VError
  | [], _, currentValue, allErrors => (currentValue, allErrors)
  | validator :: rest, i, currentValue, allErrors =>
    match validator currentValue with
    | .failure errs =>
      interLoop rest (i + 1) currentValue
        (allErrors ++ errs.map fun e =>
          ⟨e.path, "Intersection validator " ++ toString i ++ ": " ++ e.message,
            e.value, ""⟩)
    | .success v => interLoop rest (i + 1) v allErrors

/-- `IntersectionValidator.Parse` from intersection.go. -/
def intersectionParse (validators : List ParseFn) (mods : Mods) : ParseFn :=
  fun value =>
  match value with
  | .vnull =>
    if mods.isOptional || mods.isNullable then .success .vnull
    else if mods.isRequired then failureMessage "Expected value, received null"
    else
      let t := interLoop validators 1 .vnull []
      if t.2.length > 0 then .failure t.2 else .success t.1
  | v =>
    let t := interLoop validators 1 v []
    if t.2.length > 0 then .failure t.2 else .success t.1

/-! ### Lazy combinator (part_007, `LazyValidator`) -/

/-- `LazyValidator.Parse` from part_007: presence modifiers are checked on
nil first (an explicit `required` rejects); in every remaining case the
factory is invoked to construct the actual validator, which then processes
the input. -/
def lazyParse (mods : Mods) (factory : Unit → ParseFn) : ParseFn := fun value =>
  match value with
  | .vnull =>
    if mods.isOptional then .success .vnull
    else if mods.isNullable then .success .vnull
    else if mods.isRequired then failureMessage "Expected value, received null"
    else (factory ()) .vnull
  | v => (factory ()) v

/-- `LazyValidator.Parse` with the factory's effects made observable: the
Go factory is a closure that may carry state, modelled by threading an
explicit state `σ` through each invocation.  The returned state is
untouched exactly when the factory was never invoked. -/
def lazyParseS {σ : Type} (mods : Mods) (factory : σ → ParseFn × σ) (s : σ) :
    Value → ParseResult × σ := fun value =>
  match value with
  | .vnull =>
    if mods.isOptional then (.success .vnull, s)
    else if mods.isNullable then (.success .vnull, s)
    else if mods.isRequired then (failureMessage "Expected value, received null", s)
    else ((factory s).1 .vnull, (factory s).2)
  | v => ((factory s).1 v, (factory s).2)

/-! ### Derived observation functions used to state the verified claims -/

/-- Whether a parse result is a success (`result.Ok`). -/
def ParseResult.isOk : ParseResult → Bool
  | .success _ => true
  | .failure _ => false

/-- Number of issues carried by a result (0 for a success). -/
def errCount : ParseResult → Nat
  | .success _ => 0
  | .failure errs => errs.length

/-- A result that is a success carrying a non-nil value — the condition
under which `ObjectValidator.Parse` inserts a field into its output. -/
def succNonNull (r : ParseResult) : Prop :=
  ∃ w, r = .success w ∧ w.isNull = false

/-- The per-member failure summaries a union produces when every member
fails: member `i` (1-based) contributes `unionOptionMsg` of its issues. -/
def unionMsgs (value : Value) : List ParseFn → Nat → List String
  | [], _ => []
  | pf :: rest, i =>
    (match pf value with
     | .failure errs => unionOptionMsg i errs
     | .success _ => "") :: unionMsgs value rest (i + 1)

/-- The value an intersection threads through its members: a succeeding
member's output replaces the current value, a failing member leaves the
last known-good value in place. -/
def interThread : List ParseFn → Value → Value
  | [], v => v
  | pf :: rest, v =>
    match pf v with
    | .success w => interThread rest w
    | .failure _ => interThread rest v

/-- The issues an intersection collects along the threaded value: member
`i`'s issues annotated with its ordinal, all members attempted. -/
def interErrs : List ParseFn → Nat → Value → List VError
  | [], _, _ => []
  | pf :: rest, i, v =>
    match pf v with
    | .success w => interErrs rest (i + 1) w
    | .failure errs =>
      errs.map (fun e =>
        ⟨e.path, "Intersection validator " ++ toString i ++ ": " ++ e.message,
          e.value, ""⟩) ++ interErrs rest (i + 1) v

/-- Number of issues a record entry contributes: its key's issues when the
key fails, its value's issues when the key passes and the value fails, one
"Record key must be a string" issue when both pass but the validated key
is not a string, none otherwise. -/
def recordEntryErrCount (keyValidator valueValidator : ParseFn)
    (kv : String × Value) : Nat :=
  match keyValidator (.vstr kv.1) with
  | .failure kerrs => kerrs.length
  | .success k' =>
    match valueValidator kv.2 with
    | .failure verrs => verrs.length
    | .success _ =>
      match k' with
      | .vstr _ => 0
      | _ => 1

/-! ## Helper lemmas -/

/-- A result that is not `Ok` is a failure. -/
theorem not_isOk_iff (r : ParseResult) : r.isOk = false ↔ ∃ errs, r = .failure errs := by
  cases r <;> simp [ParseResult.isOk]

/-- The union member loop returns the first succeeding member's value. -/
theorem unionTry_first_success (v : Value) (pre : List ParseFn) :
    ∀ (i : Nat) (acc : List String) (m : ParseFn) (post : List ParseFn) (w : Value),
    (∀ pf ∈ pre, (pf v).isOk = false) → m v = .success w →
    unionTry v (pre ++ m :: post) i acc = .success w := by
  induction pre with
  | nil =>
    intro i acc m post w _ hm
    simp [unionTry, hm]
  | cons p rest ih =>
    intro i acc m post w hpre hm
    have hp : (p v).isOk = false := hpre p (by simp)
    rcases (not_isOk_iff (p v)).1 hp with ⟨errs, hpe⟩
    simp only [List.cons_append, unionTry, hpe]
    exact ih _ _ m post w (fun pf hpf => hpre pf (by simp [hpf])) hm

/-- The union member loop, when every member fails, produces the single
synthesized union-exhausted issue from the accumulated summaries. -/
theorem unionTry_all_fail (v : Value) (ms : List ParseFn) :
    ∀ (i : Nat) (acc : List String),
    (∀ pf ∈ ms, (pf v).isOk = false) →
    unionTry v ms i acc =
      failureMessage ("Value did not match any union type. Errors: " ++
        String.intercalate "; " (acc ++ unionMsgs v ms i)) := by
  induction ms with
  | nil =>
    intro i acc _
    simp [unionTry, unionMsgs]
  | cons p rest ih =>
    intro i acc hall
    have hp : (p v).isOk = false := hall p (by simp)
    rcases (not_isOk_iff (p v)).1 hp with ⟨errs, hpe⟩
    simp only [unionTry, hpe, unionMsgs]
    rw [ih _ _ (fun pf hpf => hall pf (by simp [hpf]))]
    simp

/-- The intersection member loop equals its threaded-value/collected-issues
description. -/
theorem interLoop_spec (ms : List ParseFn) :
    ∀ (i : Nat) (v : Value) (acc : List VError),
    interLoop ms i v acc = (interThread ms v, acc ++ interErrs ms i v) := by
  induction ms with
  | nil => intro i v acc; simp [interLoop, interThread, interErrs]
  | cons p rest ih =>
    intro i v acc
    cases hp : p v with
    | success w => simp [interLoop, interThread, interErrs, hp, ih]
    | failure errs => simp [interLoop, interThread, interErrs, hp, ih]

/-- Key-set of the schema-field loop's output: exactly the schema fields
whose validator succeeded with a non-nil value on the looked-up input. -/
theorem objectFields_keys (objMap : List (String × Value)) (schema : List (String × ParseFn)) :
    ∀ k, k ∈ (objectFields objMap schema).1.map Prod.fst ↔
      ∃ pf, (k, pf) ∈ schema ∧ succNonNull (pf (lookupV objMap k)) := by
  induction schema with
  | nil => intro k; simp [objectFields]
  | cons f rest ih =>
    intro k
    obtain ⟨name, pf0⟩ := f
    have hsplit : (∃ pf, (k, pf) ∈ (name, pf0) :: rest ∧ succNonNull (pf (lookupV objMap k))) ↔
        ((k = name ∧ succNonNull (pf0 (lookupV objMap k))) ∨
          (∃ pf, (k, pf) ∈ rest ∧ succNonNull (pf (lookupV objMap k)))) := by
      constructor
      · rintro ⟨pf, hmem, hp⟩
        rcases List.mem_cons.1 hmem with heq | hmem2
        · rw [Prod.mk.injEq] at heq
          exact Or.inl ⟨heq.1, heq.2 ▸ hp⟩
        · exact Or.inr ⟨pf, hmem2, hp⟩
      · rintro (⟨hk, hp⟩ | ⟨pf, hmem, hp⟩)
        · exact ⟨pf0, by simp [hk], hp⟩
        · exact ⟨pf, List.mem_cons_of_mem _ hmem, hp⟩
    rw [hsplit]
    cases hf : pf0 (lookupV objMap name) with
    | failure errs =>
      simp only [objectFields, hf]
      rw [ih k]
      constructor
      · exact fun h => Or.inr h
      · rintro (⟨hk, hp⟩ | h)
        · subst hk
          rcases hp with ⟨w, hw, _⟩
          rw [hf] at hw
          exact ParseResult.noConfusion hw
        · exact h
    | success v =>
      cases hv : v.isNull with
      | true =>
        simp only [objectFields, hf, hv, if_true]
        rw [ih k]
        constructor
        · exact fun h => Or.inr h
        · rintro (⟨hk, hp⟩ | h)
          · subst hk
            rcases hp with ⟨w, hw, hwn⟩
            rw [hf] at hw
            injection hw with hvw
            subst hvw
            rw [hv] at hwn
            exact Bool.noConfusion hwn
          · exact h
      | false =>
        simp only [objectFields, hf, hv, Bool.false_eq_true, if_false, List.map_cons,
          List.mem_cons]
        rw [ih k]
        constructor
        · rintro (hk | h)
          · exact Or.inl ⟨hk, ⟨v, by rw [hk, hf], hv⟩⟩
          · exact Or.inr h
        · rintro (⟨hk, hp2⟩ | h)
          · exact Or.inl hk
          · exact Or.inr h

/-- Under `strip`, the unknown-field loop contributes nothing. -/
theorem objectUnknowns_strip (schema : List (String × ParseFn)) (m : List (String × Value)) :
    objectUnknowns schema .strip m = ([], []) := by
  induction m with
  | nil => rfl
  | cons kv rest ih =>
    obtain ⟨k, v⟩ := kv
    by_cases hk : schemaHas schema k = true <;> simp [objectUnknowns, hk, ih]

/-- Under `passthrough`, the unknown-field loop copies exactly the input
entries whose key is not in the schema, with their raw values, and raises
no issue. -/
theorem objectUnknowns_passthrough (schema : List (String × ParseFn)) (m : List (String × Value)) :
    objectUnknowns schema .passthrough m =
      (m.filter (fun kv => !(schemaHas schema kv.1)), []) := by
  induction m with
  | nil => rfl
  | cons kv rest ih =>
    obtain ⟨k, v⟩ := kv
    by_cases hk : schemaHas schema k = true <;> simp [objectUnknowns, hk, ih, List.filter]

/-- Under `strict`, the unknown-field loop copies nothing and raises one
"Unknown field" issue per input entry whose key is not in the schema. -/
theorem objectUnknowns_strict (schema : List (String × ParseFn)) (m : List (String × Value)) :
    objectUnknowns schema .strict m =
      ([], (m.filter (fun kv => !(schemaHas schema kv.1))).map
        (fun kv => ⟨kv.1, "Unknown field", kv.2, ""⟩)) := by
  induction m with
  | nil => rfl
  | cons kv rest ih =>
    obtain ⟨k, v⟩ := kv
    by_cases hk : schemaHas schema k = true <;> simp [objectUnknowns, hk, ih, List.filter]

/-- The schema-field loop collects exactly as many issues as the field
validators produce: the sum over all fields of the field's issue count. -/
theorem objectFields_errlen (objMap : List (String × Value)) (schema : List (String × ParseFn)) :
    (objectFields objMap schema).2.length =
      (schema.map fun f => errCount (f.2 (lookupV objMap f.1))).sum := by
  induction schema with
  | nil => simp [objectFields]
  | cons f rest ih =>
    obtain ⟨name, pf0⟩ := f
    cases hf : pf0 (lookupV objMap name) with
    | failure errs => simp [objectFields, hf, ih, errCount]
    | success v =>
      cases hv : v.isNull <;> simp [objectFields, hf, hv, ih, errCount]

/-- Every issue the schema-field loop emits has an empty code. -/
theorem objectFields_code (objMap : List (String × Value)) (schema : List (String × ParseFn)) :
    ∀ e ∈ (objectFields objMap schema).2, e.code = "" := by
  induction schema with
  | nil => simp [objectFields]
  | cons f rest ih =>
    obtain ⟨name, pf0⟩ := f
    intro e he
    cases hf : pf0 (lookupV objMap name) with
    | failure errs =>
      simp only [objectFields, hf, List.mem_append, List.mem_map] at he
      rcases he with ⟨e0, _, he0⟩ | he2
      · rw [← he0]
      · exact ih e he2
    | success v =>
      simp only [objectFields, hf] at he
      exact ih e he

/-- Every issue the unknown-field loop emits has an empty code. -/
theorem objectUnknowns_code (schema : List (String × ParseFn)) (policy : UnknownPolicy)
    (m : List (String × Value)) :
    ∀ e ∈ (objectUnknowns schema policy m).2, e.code = "" := by
  induction m with
  | nil => simp [objectUnknowns]
  | cons kv rest ih =>
    obtain ⟨k, v⟩ := kv
    intro e he
    by_cases hk : schemaHas schema k = true
    · simp only [objectUnknowns, hk, if_true] at he
      exact ih e he
    · simp only [objectUnknowns, hk] at he
      cases policy with
      | strict =>
        rcases List.mem_cons.1 he with he0 | he2
        · rw [he0]
        · exact ih e he2
      | passthrough => exact ih e he
      | strip => exact ih e he

/-- The array element loop collects exactly as many issues as the element
validator produces: the sum over all elements of the element's issue
count. -/
theorem arrayElems_errlen (pf : ParseFn) (xs : List Value) :
    ∀ i, (arrayElems pf xs i).2.length = (xs.map fun x => errCount (pf x)).sum := by
  induction xs with
  | nil => intro i; simp [arrayElems]
  | cons x rest ih =>
    intro i
    cases hx : pf x with
    | failure errs => simp [arrayElems, hx, ih, errCount]
    | success v => simp [arrayElems, hx, ih, errCount]

/-- Every issue the array element loop emits has an empty code. -/
theorem arrayElems_code (pf : ParseFn) (xs : List Value) :
    ∀ i, ∀ e ∈ (arrayElems pf xs i).2, e.code = "" := by
  induction xs with
  | nil => intro i; simp [arrayElems]
  | cons x rest ih =>
    intro i e he
    cases hx : pf x with
    | failure errs =>
      simp only [arrayElems, hx, List.mem_append, List.mem_map] at he
      rcases he with ⟨e0, _, he0⟩ | he2
      · rw [← he0]
      · exact ih (i + 1) e he2
    | success v =>
      simp only [arrayElems, hx] at he
      exact ih (i + 1) e he

/-- The fixed-position tuple loop collects exactly as many issues as the
positional validators produce on their zipped elements. -/
theorem tupleFixed_errlen (pfs : List ParseFn) :
    ∀ (xs : List Value) (i : Nat),
    (tupleFixed pfs xs i).2.length =
      ((pfs.zip xs).map fun p => errCount (p.1 p.2)).sum := by
  induction pfs with
  | nil => intro xs i; simp [tupleFixed]
  | cons pf rest ih =>
    intro xs i
    cases xs with
    | nil => simp [tupleFixed]
    | cons x xs2 =>
      cases hx : pf x with
      | failure errs => simp [tupleFixed, hx, ih, errCount]
      | success v => simp [tupleFixed, hx, ih, errCount]

/-- Every issue the fixed-position tuple loop emits has an empty code. -/
theorem tupleFixed_code (pfs : List ParseFn) :
    ∀ (xs : List Value) (i : Nat), ∀ e ∈ (tupleFixed pfs xs i).2, e.code = "" := by
  induction pfs with
  | nil => intro xs i; simp [tupleFixed]
  | cons pf rest ih =>
    intro xs i e he
    cases xs with
    | nil => simp [tupleFixed] at he
    | cons x xs2 =>
      cases hx : pf x with
      | failure errs =>
        simp only [tupleFixed, hx, List.mem_append, List.mem_map] at he
        rcases he with ⟨e0, _, he0⟩ | he2
        · rw [← he0]
        · exact ih xs2 (i + 1) e he2
      | success v =>
        simp only [tupleFixed, hx] at he
        exact ih xs2 (i + 1) e he

/-- Every issue the tuple rest loop emits has an empty code. -/
theorem tupleRestLoop_code (pf : ParseFn) (xs : List Value) :
    ∀ i, ∀ e ∈ (tupleRestLoop pf xs i).2, e.code = "" := by
  induction xs with
  | nil => intro i; simp [tupleRestLoop]
  | cons x rest ih =>
    intro i e he
    cases hx : pf x with
    | failure errs =>
      simp only [tupleRestLoop, hx, List.mem_append, List.mem_map] at he
      rcases he with ⟨e0, _, he0⟩ | he2
      · rw [← he0]
      · exact ih (i + 1) e he2
    | success v =>
      simp only [tupleRestLoop, hx] at he
      exact ih (i + 1) e he

/-- The record entry loop collects exactly as many issues as the entries
contribute. -/
theorem recordEntries_errlen (kpf vpf : ParseFn) (m : List (String × Value)) :
    (recordEntries kpf vpf m).2.length =
      (m.map (recordEntryErrCount kpf vpf)).sum := by
  induction m with
  | nil => simp [recordEntries]
  | cons kv rest ih =>
    obtain ⟨k, v⟩ := kv
    cases hk : kpf (.vstr k) with
    | failure kerrs => simp [recordEntries, recordEntryErrCount, hk, ih]
    | success k2 =>
      cases hv : vpf v with
      | failure verrs => simp [recordEntries, recordEntryErrCount, hk, hv, ih]
      | success vv =>
        cases k2 <;> simp [recordEntries, recordEntryErrCount, hk, hv, ih] <;> omega

/-- Every issue the record entry loop emits has an empty code. -/
theorem recordEntries_code (kpf vpf : ParseFn) (m : List (String × Value)) :
    ∀ e ∈ (recordEntries kpf vpf m).2, e.code = "" := by
  induction m with
  | nil => simp [recordEntries]
  | cons kv rest ih =>
    obtain ⟨k, v⟩ := kv
    intro e he
    cases hk : kpf (.vstr k) with
    | failure kerrs =>
      simp only [recordEntries, hk, List.mem_append, List.mem_map] at he
      rcases he with ⟨e0, _, he0⟩ | he2
      · rw [← he0]
      · exact ih e he2
    | success k2 =>
      cases hv : vpf v with
      | failure verrs =>
        simp only [recordEntries, hk, hv, List.mem_append, List.mem_map] at he
        rcases he with ⟨e0, _, he0⟩ | he2
        · rw [← he0]
        · exact ih e he2
      | success vv =>
        cases k2 <;> simp only [recordEntries, hk, hv, List.mem_cons] at he <;>
          first
          | exact ih e he
          | (rcases he with he0 | he2
             · rw [he0]
             · exact ih e he2)

/-- An entry with a passing key and a failing value contributes each of the
value's issues, re-wrapped at the raw key, to the record entry loop. -/
theorem recordEntries_mem (kpf vpf : ParseFn) (m : List (String × Value))
    (k : String) (v : Value) (kv : Value) (verrs : List VError) (e : VError) :
    (k, v) ∈ m → kpf (.vstr k) = .success kv → vpf v = .failure verrs → e ∈ verrs →
    (⟨k ++ prependPath e.path, e.message, e.value, ""⟩ : VError) ∈ (recordEntries kpf vpf m).2 := by
  induction m with
  | nil => intro h; cases h
  | cons kv0 rest ih =>
    obtain ⟨k0, v0⟩ := kv0
    intro hmem hkpf hvpf he
    rcases List.mem_cons.1 hmem with heq | hmem2
    · rw [Prod.mk.injEq] at heq
      obtain ⟨hk0, hv0⟩ := heq
      subst hk0; subst hv0
      simp only [recordEntries, hkpf, hvpf, List.mem_append, List.mem_map]
      exact Or.inl ⟨e, he, rfl⟩
    · have htail := ih hmem2 hkpf hvpf he
      cases hk : kpf (.vstr k0) with
      | failure kerrs =>
        simp only [recordEntries, hk, List.mem_append]
        exact Or.inr htail
      | success k2 =>
        cases hv : vpf v0 with
        | failure verrs0 =>
          simp only [recordEntries, hk, hv, List.mem_append]
          exact Or.inr htail
        | success vv =>
          cases k2 <;> simp only [recordEntries, hk, hv, List.mem_cons] <;>
            first
            | exact htail
            | exact Or.inr htail

/-- `firstFailure` only produces issues with empty codes of its own; a
failure it passes through keeps the given success result's property. -/
theorem firstFailure_code (checks : List (Bool × String)) (ok : ParseResult) :
    (∀ errs, ok = .failure errs → ∀ e ∈ errs, e.code = "") →
    ∀ errs, firstFailure checks ok = .failure errs → ∀ e ∈ errs, e.code = "" := by
  induction checks with
  | nil => intro hok errs h; exact hok errs h
  | cons c rest ih =>
    obtain ⟨b, msg⟩ := c
    intro hok errs h
    cases b with
    | true =>
      simp only [firstFailure, if_true] at h
      rcases h with h
      intro e he
      rw [failureMessage] at h
      injection h with h2
      rw [← h2] at he
      simp only [List.mem_singleton] at he
      rw [he]
    | false =>
      simp only [firstFailure, Bool.false_eq_true, if_false] at h
      exact ih hok errs h

/-- A `FailureMessage` result only carries the empty code. -/
theorem failureMessage_code (msg : String) (errs : List VError) :
    failureMessage msg = .failure errs → ∀ e ∈ errs, e.code = "" := by
  intro h e he
  rw [failureMessage] at h
  injection h with h2
  rw [← h2] at he
  simp only [List.mem_singleton] at he
  rw [he]

/-- When the nil-presence branch does not fire (non-nil input, or a nil
input with no modifier set), `UnionValidator.Parse` is the member loop. -/
theorem unionParse_fallthrough (ms : List ParseFn) (mods : Mods) (v : Value)
    (h : v = .vnull → mods.isOptional = false ∧ mods.isNullable = false ∧ mods.isRequired = false) :
    unionParse ms mods v = unionTry v ms 1 [] := by
  cases v <;> simp only [unionParse]
  obtain ⟨h1, h2, h3⟩ := h rfl
  simp [h1, h2, h3]

/-- When the nil-presence branch does not fire,
`IntersectionValidator.Parse` is the member loop followed by the
issue-count check. -/
theorem intersectionParse_fallthrough (ms : List ParseFn) (mods : Mods) (v : Value)
    (h : v = .vnull → mods.isOptional = false ∧ mods.isNullable = false ∧ mods.isRequired = false) :
    intersectionParse ms mods v =
      (if (interLoop ms 1 v []).2.length > 0
       then .failure (interLoop ms 1 v []).2
       else .success (interLoop ms 1 v []).1) := by
  cases v <;> simp only [intersectionParse]
  obtain ⟨h1, h2, h3⟩ := h rfl
  simp [h1, h2, h3]

/-- A successful object validation of a map has no collected issues and
returns the schema-field entries followed by the retained unknown
entries. -/
theorem objectParse_success_decomp (schema : List (String × ParseFn))
    (policy : UnknownPolicy) (mods : Mods) (m : List (String × Value)) (r : Value) :
    objectParse schema policy mods (.vmap m) = .success r →
    (objectFields m schema).2 = [] ∧ (objectUnknowns schema policy m).2 = [] ∧
      r = .vmap ((objectFields m schema).1 ++ (objectUnknowns schema policy m).1) := by
  intro h
  simp only [objectParse] at h
  split at h
  · exact ParseResult.noConfusion h
  · next hc =>
    injection h with h2
    have hlen : ((objectFields m schema).2 ++ (objectUnknowns schema policy m).2).length = 0 := by
      omega
    rw [List.length_append, Nat.add_eq_zero] at hlen
    rw [List.length_eq_zero] at hlen
    obtain ⟨ha, hb⟩ := hlen
    rw [List.length_eq_zero] at hb
    exact ⟨ha, hb, h2.symm⟩

/-- A failed object validation of a map returns exactly the schema-field
issues followed by the unknown-field issues, and there is at least one. -/
theorem objectParse_failure_decomp (schema : List (String × ParseFn))
    (policy : UnknownPolicy) (mods : Mods) (m : List (String × Value)) (errs : List VError) :
    objectParse schema policy mods (.vmap m) = .failure errs →
    errs = (objectFields m schema).2 ++ (objectUnknowns schema policy m).2 := by
  intro h
  simp only [objectParse] at h
  split at h
  · injection h with h2
    exact h2.symm
  · exact ParseResult.noConfusion h

/-! ## Claim theorems -/

/-- Claim C3: for every Union, members are tried in declaration order and
the first member whose Parse succeeds determines the result, its value
returned as-is with no further members tried (first conjunct); if every
member fails, the Union fails with exactly one synthesized issue listing
each member's failure by position via `unionOptionMsg` ("Option i: ..."),
no member issue surfacing as a separate top-level issue (second conjunct:
the result is a `failureMessage`, a single issue); a freshly constructed
Union with an empty member list fails on every input (third conjunct). -/
theorem c3_union_first_success_wins :
    (∀ (pre post : List ParseFn) (m : ParseFn) (mods : Mods) (v w : Value),
       (v = .vnull → mods.isOptional = false ∧ mods.isNullable = false ∧ mods.isRequired = false) →
       (∀ pf ∈ pre, (pf v).isOk = false) → m v = .success w →
       unionParse (pre ++ m :: post) mods v = .success w) ∧
    (∀ (ms : List ParseFn) (mods : Mods) (v : Value),
       (v = .vnull → mods.isOptional = false ∧ mods.isNullable = false ∧ mods.isRequired = false) →
       (∀ pf ∈ ms, (pf v).isOk = false) →
       unionParse ms mods v =
         failureMessage ("Value did not match any union type. Errors: " ++
           String.intercalate "; " (unionMsgs v ms 1))) ∧
    (∀ v : Value, unionParse [] Mods.none v =
       failureMessage "Value did not match any union type. Errors: ") := by
  refine ⟨?_, ?_, ?_⟩
  · intro pre post m mods v w hnil hpre hm
    rw [unionParse_fallthrough _ _ _ hnil]
    exact unionTry_first_success v pre 1 [] m post w hpre hm
  · intro ms mods v hnil hall
    rw [unionParse_fallthrough _ _ _ hnil, unionTry_all_fail v ms 1 [] hall]
    simp
  · intro v
    rw [unionParse_fallthrough _ _ _ (fun _ => ⟨rfl, rfl, rfl⟩)]
    rfl

/-- Claim C3 witness: a two-member union where the first member (a string
validator) rejects the number 7 and the second (a number validator)
accepts it returns the second member's value. -/
theorem c3_union_first_success_wins_witness :
    unionParse [stringParse {}, numberParse {}] Mods.none (.vnum 7) = .success (.vnum 7) :=
  c3_union_first_success_wins.1 [stringParse {}] [] (numberParse {}) Mods.none
    (.vnum 7) (.vnum 7) (fun h => Value.noConfusion h)
    (by
      intro pf hpf
      rw [List.mem_singleton] at hpf
      rw [hpf]
      rfl)
    rfl

/-- Claim C6: presence precedence — on nil input a node with a default
configured succeeds with that default value, verbatim: the default is not
re-validated and not passed through the node's transformations, whatever
else (including `optional`) is configured.  Stated for the two node types
of the claim's sources, the string leaf (whose default is a string, hence
never null) and the enum leaf (whose default is returned without checking
it against the allowed values). -/
theorem c6_default_beats_optional :
    (∀ (cfg : StringConfig) (d : String), cfg.defaultVal = some d →
       stringParse cfg .vnull = .success (.vstr d)) ∧
    (∀ (cfg : EnumConfig) (d : Value), cfg.defaultVal = some d →
       enumParse cfg .vnull = .success d) := by
  constructor
  · intro cfg d h
    simp [stringParse, h]
  · intro cfg d h
    simp [enumParse, h]

/-- Claim C6 witness: a trimming string validator with default `" x "` and
optional set returns the default with its spaces intact (not trimmed, not
null), and an enum validator returns a default that is not among its
allowed values. -/
theorem c6_default_beats_optional_witness :
    stringParse { shouldTrim := true, defaultVal := some " x ", isOptional := true } .vnull
      = .success (.vstr " x ") ∧
    enumParse { allowedValues := [.vstr "a"]
                defaultVal := some (.vstr "zzz")
                isOptional := true } .vnull
      = .success (.vstr "zzz") :=
  ⟨c6_default_beats_optional.1 _ " x " rfl,
   c6_default_beats_optional.2 _ (.vstr "zzz") rfl⟩

/-- Claim C8: for a Union given nil input the presence policy rejects
before trying members only when `required` is explicitly set (and no
accepting modifier is): then the result is the null failure regardless of
the members (first conjunct).  Otherwise, with no modifier set, the nil
input is offered to each member in declaration order, so a member that
itself accepts nil (e.g. one configured optional/nullable) determines the
result (second conjunct). -/
theorem c8_union_nil_offered_to_members :
    (∀ (ms : List ParseFn) (mods : Mods),
       mods.isRequired = true → mods.isOptional = false → mods.isNullable = false →
       unionParse ms mods .vnull = failureMessage "Expected value, received null") ∧
    (∀ (pre post : List ParseFn) (m : ParseFn) (w : Value),
       (∀ pf ∈ pre, (pf .vnull).isOk = false) → m .vnull = .success w →
       unionParse (pre ++ m :: post) Mods.none .vnull = .success w) := by
  constructor
  · intro ms mods hreq hopt hnul
    simp [unionParse, hreq, hopt, hnul]
  · intro pre post m w hpre hm
    rw [unionParse_fallthrough _ _ _ (fun _ => ⟨rfl, rfl, rfl⟩)]
    exact unionTry_first_success .vnull pre 1 [] m post w hpre hm

/-- Claim C8 witness: a required union rejects nil without consulting its
member, and an unmodified union lets its optional string member accept
nil. -/
theorem c8_union_nil_offered_to_members_witness :
    unionParse [stringParse {}] ⟨true, false, false⟩ .vnull
      = failureMessage "Expected value, received null" ∧
    unionParse [stringParse {}, stringParse { isOptional := true }] Mods.none .vnull
      = .success .vnull :=
  ⟨c8_union_nil_offered_to_members.1 [stringParse {}] ⟨true, false, false⟩ rfl rfl rfl,
   c8_union_nil_offered_to_members.2 [stringParse {}] [] (stringParse { isOptional := true })
     .vnull
     (by
       intro pf hpf
       rw [List.mem_singleton] at hpf
       rw [hpf]
       rfl)
     rfl⟩

/-- Claim C9: for every Lazy node the presence modifiers are checked
before the factory is invoked — a nil input accepted by optional/nullable
succeeds without the factory being constructed or called (first conjunct,
on the pure transliteration, and second conjunct, on the state-threaded
model where the untouched state witnesses that no invocation happened);
in every other case the factory is invoked fresh on that very call and its
product processes the input (third conjunct); consecutive calls each
invoke the factory anew — the second call uses the factory's next product,
not a memoized first one (fourth conjunct).  (`LazyValidator` offers no
default modifier, so the claim's `default` alternative cannot arise.) -/
theorem c9_lazy_fresh_uninvoked_on_nil :
    (∀ (factory : Unit → ParseFn) (mods : Mods),
       mods.isOptional = true ∨ mods.isNullable = true →
       lazyParse mods factory .vnull = .success .vnull) ∧
    (∀ (σ : Type) (factory : σ → ParseFn × σ) (s : σ) (mods : Mods),
       mods.isOptional = true ∨ mods.isNullable = true →
       lazyParseS mods factory s .vnull = (.success .vnull, s)) ∧
    (∀ (σ : Type) (factory : σ → ParseFn × σ) (s : σ) (mods : Mods) (v : Value),
       v ≠ .vnull →
       lazyParseS mods factory s v = ((factory s).1 v, (factory s).2)) ∧
    (∀ (pfs : Nat → ParseFn) (v1 v2 : Value), v1 ≠ .vnull → v2 ≠ .vnull →
       (lazyParseS Mods.none (fun n => (pfs n, n + 1)) 0 v1).1 = pfs 0 v1 ∧
       (lazyParseS Mods.none (fun n => (pfs n, n + 1))
          ((lazyParseS Mods.none (fun n => (pfs n, n + 1)) 0 v1).2) v2).1 = pfs 1 v2) := by
  refine ⟨?_, ?_, ?_, ?_⟩
  · intro factory mods h
    rcases h with h | h
    · simp [lazyParse, h]
    · cases ho : mods.isOptional <;> simp [lazyParse, ho, h]
  · intro σ factory s mods h
    rcases h with h | h
    · simp [lazyParseS, h]
    · cases ho : mods.isOptional <;> simp [lazyParseS, ho, h]
  · intro σ factory s mods v hv
    cases v <;> first | exact absurd rfl hv | rfl
  · intro pfs v1 v2 h1 h2
    have e1 : lazyParseS Mods.none (fun n => (pfs n, n + 1)) 0 v1 = (pfs 0 v1, 1) := by
      cases v1 <;> first | exact absurd rfl h1 | rfl
    have e2 : lazyParseS Mods.none (fun n => (pfs n, n + 1)) 1 v2 = (pfs 1 v2, 2) := by
      cases v2 <;> first | exact absurd rfl h2 | rfl
    rw [e1]
    exact ⟨rfl, by rw [e2]⟩

/-- Claim C9 witness: an optional Lazy node accepts nil leaving the
factory state at 5 (never invoked), and two consecutive calls on values
consume factory products 0 and 1 in order. -/
theorem c9_lazy_fresh_uninvoked_on_nil_witness :
    lazyParseS ⟨false, true, false⟩
        (fun (n : Nat) => ((fun _ => ParseResult.success (.vnum n)), n + 1)) 5 .vnull
      = (.success .vnull, 5) ∧
    (lazyParseS Mods.none
        (fun (n : Nat) => ((fun _ => ParseResult.success (.vnum n)), n + 1)) 0 (.vstr "a")).1
      = .success (.vnum 0) ∧
    (lazyParseS Mods.none
        (fun (n : Nat) => ((fun _ => ParseResult.success (.vnum n)), n + 1))
        ((lazyParseS Mods.none
          (fun (n : Nat) => ((fun _ => ParseResult.success (.vnum n)), n + 1)) 0 (.vstr "a")).2)
        (.vstr "b")).1
      = .success (.vnum 1) :=
  ⟨c9_lazy_fresh_uninvoked_on_nil.2.1 Nat
     (fun n => ((fun _ => ParseResult.success (.vnum n)), n + 1)) 5 ⟨false, true, false⟩
     (Or.inl rfl),
   (c9_lazy_fresh_uninvoked_on_nil.2.2.2
     (fun n => (fun _ => ParseResult.success (.vnum n)))
     (.vstr "a") (.vstr "b") (fun h => Value.noConfusion h) (fun h => Value.noConfusion h)).1,
   (c9_lazy_fresh_uninvoked_on_nil.2.2.2
     (fun n => (fun _ => ParseResult.success (.vnum n)))
     (.vstr "a") (.vstr "b") (fun h => Value.noConfusion h) (fun h => Value.noConfusion h)).2⟩

/-- Claim C1: path composition is position-accurate across nesting.
`Object(Schema{user: Object(Schema{email: String().Email()})})` validating
`{user:{email:"bad"}}` fails with exactly one issue at path `"user.email"`
(first conjunct); `Array(Object(Schema{email: String().Email()}))` with
the element at index 1 carrying an invalid email fails with exactly one
issue at path `"[1].email"` (second conjunct); in general an Object
prefixes each descendant issue path with its own field-name segment,
`fieldName + prependPath(path)`, so ancestor segments compose in order
across nesting (third conjunct). -/
theorem c1_path_composition :
    (objectParse
        [("user", objectParse [("email", stringParse { isEmail := true })] .strip Mods.none)]
        .strip Mods.none
        (.vmap [("user", .vmap [("email", .vstr "bad")])])
      = .failure [⟨"user.email", "Invalid email format", .vnull, ""⟩]) ∧
    (arrayParse {} (objectParse [("email", stringParse { isEmail := true })] .strip Mods.none)
        (.varr [.vmap [("email", .vstr "a@b.co")], .vmap [("email", .vstr "bad")]])
      = .failure [⟨"[1].email", "Invalid email format", .vnull, ""⟩]) ∧
    (∀ (pf : ParseFn) (name : String) (policy : UnknownPolicy) (mods : Mods)
       (v : Value) (errs : List VError),
       pf v = .failure errs → errs ≠ [] →
       objectParse [(name, pf)] policy mods (.vmap [(name, v)])
         = .failure (errs.map fun e =>
             ⟨name ++ prependPath e.path, e.message, e.value, ""⟩)) := by
  refine ⟨rfl, rfl, ?_⟩
  intro pf name policy mods v errs hpf hne
  have hfields : objectFields [(name, v)] [(name, pf)]
      = ([], errs.map fun e => ⟨name ++ prependPath e.path, e.message, e.value, ""⟩) := by
    simp [objectFields, lookupV, hpf]
  have hunk : objectUnknowns [(name, pf)] policy [(name, v)] = ([], []) := by
    simp [objectUnknowns, schemaHas]
  simp only [objectParse, hfields, hunk, List.append_nil]
  rw [if_pos]
  simp [List.length_pos, hne]

/-- Claim C1 witness: the general prefixing conjunct applied to a string
leaf failing on the number 1 under field "n". -/
theorem c1_path_composition_witness :
    objectParse [("n", stringParse {})] .strip Mods.none (.vmap [("n", .vnum 1)])
      = .failure [⟨"n", "Expected string, received number", .vnull, ""⟩] := by
  have h := c1_path_composition.2.2 (stringParse {}) "n" .strip Mods.none (.vnum 1)
    [⟨"", "Expected string, received number", .vnull, ""⟩] rfl (by simp)
  simpa [prependPath] using h

/-- Claim C4: for every Intersection (with the nil-presence branch not
firing), a single evolving value is threaded through the members in
declaration order — `interThread` keeps a succeeding member's output and
keeps the last known-good value past a failing member, and `interErrs`
records every member's issues annotated with the member's ordinal, no
early abort.  The validation succeeds exactly when no member failed
(`interErrs` empty), returning the threaded value, i.e. the output of the
last successful member; otherwise it fails with all collected issues
(first conjunct).  A freshly constructed Intersection with an empty member
list succeeds on every input, returning it unchanged (second conjunct). -/
theorem c4_intersection_threads_value :
    (∀ (ms : List ParseFn) (mods : Mods) (v : Value),
       (v = .vnull → mods.isOptional = false ∧ mods.isNullable = false ∧ mods.isRequired = false) →
       (interErrs ms 1 v = [] → intersectionParse ms mods v = .success (interThread ms v)) ∧
       (interErrs ms 1 v ≠ [] → intersectionParse ms mods v = .failure (interErrs ms 1 v))) ∧
    (∀ v : Value, intersectionParse [] Mods.none v = .success v) := by
  constructor
  · intro ms mods v hnil
    rw [intersectionParse_fallthrough _ _ _ hnil]
    constructor
    · intro hemp
      simp [interLoop_spec, hemp, interThread]
    · intro hne
      rw [interLoop_spec]
      simp only [List.nil_append]
      rw [if_pos (List.length_pos.mpr hne)]
  · intro v
    cases v <;> simp [intersectionParse, interLoop, Mods.none]

/-- Claim C4 witness: `Intersection(String().Trim(), String().Min(3))` on
`" hello "` trims in member 1, threads `"hello"` into member 2, and
succeeds with the final transformed value. -/
theorem c4_intersection_threads_value_witness :
    intersectionParse [stringParse { shouldTrim := true }, stringParse { minLen := some 3 }]
        Mods.none (.vstr " hello ")
      = .success (.vstr "hello") :=
  ((c4_intersection_threads_value.1
      [stringParse { shouldTrim := true }, stringParse { minLen := some 3 }]
      Mods.none (.vstr " hello ") (fun h => Value.noConfusion h)).1 rfl :)

/-- Claim C5: collect-all issue counting.
`Record(String(), Number().Min(0))` validating `{a:10, b:-5, c:"x",
d:-10}` returns exactly 3 issues, at paths `"b"`, `"c"`, `"d"` (first
conjunct).  In general there is no early termination: the number of issues
an Array, Object (under its default `strip` policy), Record, or
length-matching Tuple failure returns equals the summed issue counts of
its independently failing elements/fields/entries/positions (remaining
conjuncts). -/
theorem c5_issue_count_per_failing_leaf :
    (recordParse (stringParse {}) (numberParse { minVal := some 0 }) Mods.none
        (.vmap [("a", .vnum 10), ("b", .vnum (-5)), ("c", .vstr "x"), ("d", .vnum (-10))])
      = .failure
          [⟨"b", "Number must be at least 0", .vnull, ""⟩,
           ⟨"c", "Expected number, received string", .vnull, ""⟩,
           ⟨"d", "Number must be at least 0", .vnull, ""⟩]) ∧
    (∀ (pf : ParseFn) (xs : List Value) (errs : List VError),
       arrayParse {} pf (.varr xs) = .failure errs →
       errs.length = (xs.map fun x => errCount (pf x)).sum) ∧
    (∀ (schema : List (String × ParseFn)) (mods : Mods) (m : List (String × Value))
       (errs : List VError),
       objectParse schema .strip mods (.vmap m) = .failure errs →
       errs.length = (schema.map fun f => errCount (f.2 (lookupV m f.1))).sum) ∧
    (∀ (kpf vpf : ParseFn) (mods : Mods) (m : List (String × Value)) (errs : List VError),
       recordParse kpf vpf mods (.vmap m) = .failure errs →
       errs.length = (m.map (recordEntryErrCount kpf vpf)).sum) ∧
    (∀ (pfs : List ParseFn) (mods : Mods) (xs : List Value) (errs : List VError),
       xs.length = pfs.length →
       tupleParse pfs none mods (.varr xs) = .failure errs →
       errs.length = ((pfs.zip xs).map fun p => errCount (p.1 p.2)).sum) := by
  refine ⟨rfl, ?_, ?_, ?_, ?_⟩
  · intro pf xs errs h
    have h2 : (if (arrayElems pf xs 0).2.length > 0
        then ParseResult.failure (arrayElems pf xs 0).2
        else .success (.varr (arrayElems pf xs 0).1)) = .failure errs := by
      simpa [arrayParse, firstFailure, optCheck] using h
    split at h2
    · injection h2 with h3
      rw [← h3, arrayElems_errlen]
    · exact ParseResult.noConfusion h2
  · intro schema mods m errs h
    have hd := objectParse_failure_decomp schema .strip mods m errs h
    rw [objectUnknowns_strip] at hd
    rw [hd, List.append_nil, objectFields_errlen]
  · intro kpf vpf mods m errs h
    simp only [recordParse] at h
    split at h
    · injection h with h2
      rw [← h2, recordEntries_errlen]
    · exact ParseResult.noConfusion h
  · intro pfs mods xs errs hlen h
    simp only [tupleParse, hlen] at h
    rw [if_neg (by simp)] at h
    split at h
    · injection h with h2
      rw [← h2, tupleFixed_errlen]
    · exact ParseResult.noConfusion h

/-- Claim C5 witness: the array conjunct applied to a number-element array
with two failing elements out of three, giving exactly 2 issues. -/
theorem c5_issue_count_per_failing_leaf_witness :
    ([⟨"[0]", "Expected number, received string", .vnull, ""⟩,
      ⟨"[2]", "Expected number, received boolean", .vnull, ""⟩] : List VError).length
      = ([.vstr "x", .vnum 3, .vbool true].map
          fun x => errCount (numberParse {} x)).sum :=
  c5_issue_count_per_failing_leaf.2.1 (numberParse {})
    [.vstr "x", .vnum 3, .vbool true]
    [⟨"[0]", "Expected number, received string", .vnull, ""⟩,
     ⟨"[2]", "Expected number, received boolean", .vnull, ""⟩]
    rfl

/-- Claim C7 counterexample: in `Record(String().Trim(), Number())`
validating `{" k ": "x"}`, the key `" k "` passes the key validator with
transformed output `"k"`, the value fails, and the resulting issue's path
is the raw input key `" k "`, not the validated key `"k"` — the claim's
"validated key string" path is false at this input. -/
theorem c7_value_issue_path_counterexample :
    stringParse { shouldTrim := true } (.vstr " k ") = .success (.vstr "k") ∧
    recordParse (stringParse { shouldTrim := true }) (numberParse {}) Mods.none
        (.vmap [(" k ", .vstr "x")])
      = .failure [⟨" k ", "Expected number, received string", .vnull, ""⟩] ∧
    (" k " : String) ≠ "k" :=
  ⟨rfl, rfl, by decide⟩

/-- Claim C7 (amended): for every Record entry whose key passes the key
validator but whose value fails the value validator, each resulting
issue's path is the raw input key string (the key as it appears in the
input map, not the key validator's possibly transformed output) followed
by the value issue's sub-path. -/
theorem c7_value_issue_raw_key_path :
    ∀ (kpf vpf : ParseFn) (mods : Mods) (m : List (String × Value)) (k : String)
      (v : Value) (kv : Value) (verrs : List VError) (e : VError),
    (k, v) ∈ m → kpf (.vstr k) = .success kv → vpf v = .failure verrs → e ∈ verrs →
    ∃ errs, recordParse kpf vpf mods (.vmap m) = .failure errs ∧
      (⟨k ++ prependPath e.path, e.message, e.value, ""⟩ : VError) ∈ errs := by
  intro kpf vpf mods m k v kv verrs e hmem hk hv he
  have hm := recordEntries_mem kpf vpf m k v kv verrs e hmem hk hv he
  refine ⟨(recordEntries kpf vpf m).2, ?_, hm⟩
  simp only [recordParse]
  rw [if_pos (List.length_pos.mpr (List.ne_nil_of_mem hm))]

/-- Claim C7 witness: the amended statement applied to the
counterexample's input. -/
theorem c7_value_issue_raw_key_path_witness :
    ∃ errs, recordParse (stringParse { shouldTrim := true }) (numberParse {}) Mods.none
        (.vmap [(" k ", .vstr "x")]) = .failure errs ∧
      (⟨" k " ++ prependPath "", "Expected number, received string", .vnull, ""⟩ : VError)
        ∈ errs :=
  c7_value_issue_raw_key_path (stringParse { shouldTrim := true }) (numberParse {})
    Mods.none [(" k ", .vstr "x")] " k " (.vstr "x") (.vstr "k")
    [⟨"", "Expected number, received string", .vnull, ""⟩]
    ⟨"", "Expected number, received string", .vnull, ""⟩
    (by simp) rfl rfl (by simp)

/-- Claim C10 (implicit): when Object, Array, Tuple and Record re-wrap a
child issue to prefix its path, only the child's Path, Message and Value
are copied, never its Code, and the combinators' own issues carry no code
either — so every issue a failure of one of these four combinators
returns has an empty code (first four conjuncts), even when the child
validator populated a code, as the concrete child failing with code
"custom_code" shows (fifth conjunct). -/
theorem c10_child_issue_code_dropped :
    (∀ (schema : List (String × ParseFn)) (policy : UnknownPolicy) (mods : Mods)
       (v : Value) (errs : List VError),
       objectParse schema policy mods v = .failure errs → ∀ e ∈ errs, e.code = "") ∧
    (∀ (cfg : ArrayConfig) (pf : ParseFn) (v : Value) (errs : List VError),
       arrayParse cfg pf v = .failure errs → ∀ e ∈ errs, e.code = "") ∧
    (∀ (pfs : List ParseFn) (rest : Option ParseFn) (mods : Mods) (v : Value)
       (errs : List VError),
       tupleParse pfs rest mods v = .failure errs → ∀ e ∈ errs, e.code = "") ∧
    (∀ (kpf vpf : ParseFn) (mods : Mods) (v : Value) (errs : List VError),
       recordParse kpf vpf mods v = .failure errs → ∀ e ∈ errs, e.code = "") ∧
    (objectParse [("f", fun _ => .failure [⟨"", "boom", .vnull, "custom_code"⟩])]
        .strip Mods.none (.vmap [("f", .vstr "x")])
      = .failure [⟨"f", "boom", .vnull, ""⟩]) := by
  refine ⟨?_, ?_, ?_, ?_, rfl⟩
  · intro schema policy mods v errs h e he
    cases v with
    | vmap m =>
      have hd := objectParse_failure_decomp schema policy mods m errs h
      rw [hd] at he
      rcases List.mem_append.1 he with h1 | h2
      · exact objectFields_code m schema e h1
      · exact objectUnknowns_code schema policy m e h2
    | vnull =>
      simp only [objectParse] at h
      split at h
      · exact ParseResult.noConfusion h
      · split at h
        · exact ParseResult.noConfusion h
        · exact failureMessage_code _ _ h e he
    | vbool b => exact failureMessage_code _ _ h e he
    | vnum n => exact failureMessage_code _ _ h e he
    | vstr s => exact failureMessage_code _ _ h e he
    | varr xs => exact failureMessage_code _ _ h e he
  · intro cfg pf v errs h e he
    cases v with
    | varr xs =>
      simp only [arrayParse] at h
      refine firstFailure_code _ _ ?_ errs h e he
      intro errs2 h2 e2 he2
      split at h2
      · injection h2 with h3
        rw [← h3] at he2
        exact arrayElems_code pf xs 0 e2 he2
      · exact ParseResult.noConfusion h2
    | vnull =>
      simp only [arrayParse] at h
      split at h
      · exact ParseResult.noConfusion h
      · split at h
        · exact ParseResult.noConfusion h
        · exact failureMessage_code _ _ h e he
    | vbool b => exact failureMessage_code _ _ h e he
    | vnum n => exact failureMessage_code _ _ h e he
    | vstr s => exact failureMessage_code _ _ h e he
    | vmap m => exact failureMessage_code _ _ h e he
  · intro pfs rest mods v errs h e he
    cases v with
    | varr xs =>
      cases rest with
      | none =>
        simp only [tupleParse] at h
        by_cases hlen : xs.length = pfs.length
        · rw [if_neg (by simp [hlen])] at h
          split at h
          · injection h with h3
            rw [← h3] at he
            exact tupleFixed_code pfs xs 0 e he
          · exact ParseResult.noConfusion h
        · rw [if_pos (by simp [hlen])] at h
          exact failureMessage_code _ _ h e he
      | some restV =>
        simp only [tupleParse] at h
        by_cases hlen : xs.length < pfs.length
        · rw [if_pos hlen] at h
          exact failureMessage_code _ _ h e he
        · rw [if_neg hlen] at h
          split at h
          · injection h with h3
            rw [← h3] at he
            rcases List.mem_append.1 he with h1 | h2
            · exact tupleFixed_code pfs xs 0 e h1
            · exact tupleRestLoop_code restV (xs.drop pfs.length) pfs.length e h2
          · exact ParseResult.noConfusion h
    | vnull =>
      simp only [tupleParse] at h
      split at h
      · exact ParseResult.noConfusion h
      · split at h
        · exact ParseResult.noConfusion h
        · exact failureMessage_code _ _ h e he
    | vbool b => exact failureMessage_code _ _ h e he
    | vnum n => exact failureMessage_code _ _ h e he
    | vstr s => exact failureMessage_code _ _ h e he
    | vmap m => exact failureMessage_code _ _ h e he
  · intro kpf vpf mods v errs h e he
    cases v with
    | vmap m =>
      simp only [recordParse] at h
      split at h
      · injection h with h3
        rw [← h3] at he
        exact recordEntries_code kpf vpf m e he
      · exact ParseResult.noConfusion h
    | vnull =>
      simp only [recordParse] at h
      split at h
      · exact ParseResult.noConfusion h
      · split at h
        · exact ParseResult.noConfusion h
        · exact failureMessage_code _ _ h e he
    | vbool b => exact failureMessage_code _ _ h e he
    | vnum n => exact failureMessage_code _ _ h e he
    | vstr s => exact failureMessage_code _ _ h e he
    | varr xs => exact failureMessage_code _ _ h e he

/-- Claim C10 witness: the object conjunct applied to the child that fails
with code "custom_code"; the surfaced issue's code is empty. -/
theorem c10_child_issue_code_dropped_witness :
    (⟨"f", "boom", .vnull, ""⟩ : VError).code = "" :=
  c10_child_issue_code_dropped.1
    [("f", fun _ => .failure [⟨"", "boom", .vnull, "custom_code"⟩])] .strip Mods.none
    (.vmap [("f", .vstr "x")]) [⟨"f", "boom", .vnull, ""⟩] rfl
    ⟨"f", "boom", .vnull, ""⟩ (by simp)

/-- Keys of the not-in-schema filter of an input map: exactly the input
keys that are not schema fields. -/
theorem unknownFilter_keys (schema : List (String × ParseFn)) (m : List (String × Value))
    (k : String) :
    k ∈ (m.filter fun kv => !(schemaHas schema kv.1)).map Prod.fst ↔
      ((∃ v, (k, v) ∈ m) ∧ schemaHas schema k = false) := by
  simp only [List.mem_map, List.mem_filter, Bool.not_eq_true']
  constructor
  · rintro ⟨⟨k1, v1⟩, ⟨hm, hs⟩, hk⟩
    dsimp only at hk
    subst hk
    exact ⟨⟨v1, hm⟩, hs⟩
  · rintro ⟨⟨v, hm⟩, hs⟩
    exact ⟨(k, v), ⟨hm, hs⟩, rfl⟩

/-- Claim C2: for every Object schema and map input, a successful
validation returns a map whose key set is exactly the schema fields whose
validator succeeded with a non-nil value, united with the unknown input
keys retained by the policy — none under `strict` and `strip`, all of
them under `passthrough` (first conjunct).  Under `strict` any unknown key
makes the whole validation fail (second conjunct); under `passthrough`
every unknown entry is copied into the result with its raw value
unmodified (third conjunct); under `strip` every unknown key is omitted —
every result key is a schema field (fourth conjunct). -/
theorem c2_object_result_key_set :
    (∀ (schema : List (String × ParseFn)) (policy : UnknownPolicy) (mods : Mods)
       (m : List (String × Value)) (r : Value),
       objectParse schema policy mods (.vmap m) = .success r →
       ∃ rl, r = .vmap rl ∧
         ∀ k, k ∈ rl.map Prod.fst ↔
           ((∃ pf, (k, pf) ∈ schema ∧ succNonNull (pf (lookupV m k))) ∨
            (policy = .passthrough ∧ (∃ v, (k, v) ∈ m) ∧ schemaHas schema k = false))) ∧
    (∀ (schema : List (String × ParseFn)) (mods : Mods) (m : List (String × Value))
       (k : String) (v : Value),
       (k, v) ∈ m → schemaHas schema k = false →
       ∃ errs, objectParse schema .strict mods (.vmap m) = .failure errs) ∧
    (∀ (schema : List (String × ParseFn)) (mods : Mods) (m : List (String × Value))
       (rl : List (String × Value)),
       objectParse schema .passthrough mods (.vmap m) = .success (.vmap rl) →
       ∀ (k : String) (v : Value), (k, v) ∈ m → schemaHas schema k = false → (k, v) ∈ rl) ∧
    (∀ (schema : List (String × ParseFn)) (mods : Mods) (m : List (String × Value))
       (rl : List (String × Value)),
       objectParse schema .strip mods (.vmap m) = .success (.vmap rl) →
       ∀ k ∈ rl.map Prod.fst, ∃ pf, (k, pf) ∈ schema) := by
  refine ⟨?_, ?_, ?_, ?_⟩
  · intro schema policy mods m r h
    obtain ⟨hf2, hu2, hr⟩ := objectParse_success_decomp schema policy mods m r h
    refine ⟨(objectFields m schema).1 ++ (objectUnknowns schema policy m).1, hr, ?_⟩
    intro k
    have hiff : k ∈ (objectUnknowns schema policy m).1.map Prod.fst ↔
        (policy = .passthrough ∧ (∃ v, (k, v) ∈ m) ∧ schemaHas schema k = false) := by
      cases policy with
      | strict => rw [objectUnknowns_strict]; simp
      | strip => rw [objectUnknowns_strip]; simp
      | passthrough =>
        rw [objectUnknowns_passthrough]
        simp only [true_and]
        exact unknownFilter_keys schema m k
    rw [List.map_append, List.mem_append]
    exact or_congr (objectFields_keys m schema k) hiff
  · intro schema mods m k v hm hk
    have hmem : (⟨k, "Unknown field", v, ""⟩ : VError) ∈ (objectUnknowns schema .strict m).2 := by
      rw [objectUnknowns_strict]
      simp only [List.mem_map, List.mem_filter, Bool.not_eq_true']
      exact ⟨(k, v), ⟨hm, hk⟩, rfl⟩
    refine ⟨(objectFields m schema).2 ++ (objectUnknowns schema .strict m).2, ?_⟩
    simp only [objectParse]
    rw [if_pos]
    have h1 : 0 < (objectUnknowns schema .strict m).2.length :=
      List.length_pos.mpr (List.ne_nil_of_mem hmem)
    rw [List.length_append]
    omega
  · intro schema mods m rl h k v hm hk
    obtain ⟨hf2, hu2, hr⟩ := objectParse_success_decomp schema .passthrough mods m _ h
    injection hr with hrl
    rw [objectUnknowns_passthrough] at hrl
    rw [hrl, List.mem_append]
    exact Or.inr (List.mem_filter.2 ⟨hm, by simp [hk]⟩)
  · intro schema mods m rl h k hkmem
    obtain ⟨hf2, hu2, hr⟩ := objectParse_success_decomp schema .strip mods m _ h
    injection hr with hrl
    rw [objectUnknowns_strip, List.append_nil] at hrl
    rw [hrl] at hkmem
    obtain ⟨pf, hmem, _⟩ := (objectFields_keys m schema k).1 hkmem
    exact ⟨pf, hmem⟩

/-- Claim C2 witness: a passthrough object with one schema field and one
unknown key succeeds; its key-set characterization applied to the key
"extra" confirms the unknown key is retained. -/
theorem c2_object_result_key_set_witness :
    ∃ rl, Value.vmap [("a", Value.vstr "x"), ("extra", Value.vnum 5)] = .vmap rl ∧
      ∀ k, k ∈ rl.map Prod.fst ↔
        ((∃ pf, (k, pf) ∈ [("a", stringParse {})] ∧
            succNonNull (pf (lookupV [("a", Value.vstr "x"), ("extra", Value.vnum 5)] k))) ∨
         (UnknownPolicy.passthrough = UnknownPolicy.passthrough ∧
           (∃ v, (k, v) ∈ [("a", Value.vstr "x"), ("extra", Value.vnum 5)]) ∧
           schemaHas [("a", stringParse {})] k = false)) :=
  c2_object_result_key_set.1 [("a", stringParse {})] .passthrough Mods.none
    [("a", .vstr "x"), ("extra", .vnum 5)]
    (Value.vmap [("a", Value.vstr "x"), ("extra", Value.vnum 5)]) rfl

end Zogo
